import Mathlib

/-!
Shallow embedding of the halo2 in-circuit arithmetic loader
(src/src/loader/halo2/loader.rs of pinkiebell/plonk-verifier).

The loader's shared mutable state (counters, constant-point cache, circuit
context) is modelled as an explicit state record threaded through every
operation.  Circuit-assigned scalars and points are opaque handles produced
by the chips; they are modelled as natural-number identifiers drawn from
fresh counters.  Every call into the scalar or curve chip is recorded in a
trace, so that "no chip call occurs" and "exactly one MSM call occurs"
become statements about the trace.  A Rust panic (an unwrap that can fail
on reachable input) is modelled by an Option-returning operation.
-/

set_option maxHeartbeats 1000000
set_option linter.unusedSectionVars false

namespace PlonkHalo2

/-- Tagged union distinguishing a compile-time constant from a
circuit-assigned handle, mirroring the enum Value of the loader. -/
inductive Value (T L : Type) where
  | Constant : T → Value T L
  | Assigned : L → Value T L
  deriving DecidableEq

/-- One call into the scalar chip or the curve chip, recorded in the trace.
F is the scalar field, B the base field of affine point coordinates.
Handles appearing as arguments are the Nat identifiers of assigned cells. -/
inductive ChipCall (F B : Type) where
  | assignConstantScalar : F → ChipCall F B
  | assignIntegerScalar : ChipCall F B
  | sumWithCoeffAndConst : List (F × Nat) → F → ChipCall F B
  | sumProductsWithCoeffAndConst : List (F × Nat × Nat) → F → ChipCall F B
  | scalarSub : Nat → Nat → ChipCall F B
  | scalarNeg : Nat → ChipCall F B
  | scalarInvert : Nat → ChipCall F B
  | scalarAssertEqual : Nat → Nat → ChipCall F B
  | assignPoint : Option (B × B) → ChipCall F B
  | ecAdd : Nat → Nat → ChipCall F B
  | ecMSM : List (Nat × Nat) → ChipCall F B
  | ecNormalize : Nat → ChipCall F B
  | ecAssertEqual : Nat → Nat → ChipCall F B
  deriving DecidableEq

/-- struct Scalar: identity index plus Value (the Rc loader back-reference
becomes the explicitly threaded state). -/
structure Scalar (F : Type) where
  index : Nat
  value : Value F Nat
  deriving DecidableEq

/-- struct EcPoint: identity index plus the assigned circuit-point handle. -/
structure EcPoint where
  index : Nat
  assigned : Nat
  deriving DecidableEq

/-- State of a Halo2Loader: the two identity counters, the constant-point
cache keyed on affine coordinates, fresh-handle counters standing in for
the chips' cell allocation, and the trace of chip calls. -/
structure LoaderState (F B : Type) where
  num_scalar : Nat
  num_ec_point : Nat
  const_ec_point : List ((B × B) × EcPoint)
  next_assigned_scalar : Nat
  next_assigned_point : Nat
  trace : List (ChipCall F B)
  deriving DecidableEq

variable {F : Type} [Field F] [DecidableEq F] {B : Type} [DecidableEq B]

/-- Halo2Loader::new - counters start at zero, cache and trace empty. -/
def initState : LoaderState F B :=
  { num_scalar := 0, num_ec_point := 0, const_ec_point := []
  , next_assigned_scalar := 0, next_assigned_point := 0, trace := [] }

/-- A scalar-chip call that returns a fresh assigned-scalar handle and is
recorded in the trace. -/
def chipScalarCall (st : LoaderState F B) (call : ChipCall F B) :
    Nat × LoaderState F B :=
  (st.next_assigned_scalar,
   { st with next_assigned_scalar := st.next_assigned_scalar + 1
           , trace := st.trace ++ [call] })

/-- A curve-chip call that returns a fresh assigned-point handle and is
recorded in the trace. -/
def chipPointCall (st : LoaderState F B) (call : ChipCall F B) :
    Nat × LoaderState F B :=
  (st.next_assigned_point,
   { st with next_assigned_point := st.next_assigned_point + 1
           , trace := st.trace ++ [call] })

/-- A chip call that returns no handle (the assert-equal constraints),
recorded in the trace. -/
def chipAssertCall (st : LoaderState F B) (call : ChipCall F B) :
    LoaderState F B :=
  { st with trace := st.trace ++ [call] }

/-- Halo2Loader::scalar - wraps a Value into a fresh Scalar: the identity
index is the current num_scalar, which is then incremented by one. -/
def Halo2Loader.scalar (st : LoaderState F B) (value : Value F Nat) :
    Scalar F × LoaderState F B :=
  (⟨st.num_scalar, value⟩, { st with num_scalar := st.num_scalar + 1 })

/-- Halo2Loader::assign_const_scalar - always assigns a circuit cell via the
scalar chip's assign_constant, then wraps the handle as an Assigned Scalar. -/
def Halo2Loader.assign_const_scalar (st : LoaderState F B) (constant : F) :
    Scalar F × LoaderState F B :=
  let r := chipScalarCall st (.assignConstantScalar constant)
  Halo2Loader.scalar r.2 (.Assigned r.1)

/-- Scalar::assigned - extracts the assigned handle; a Constant is first
materialized through assign_const_scalar (chip assign_constant plus a fresh
Scalar identity whose wrapper is immediately discarded) exactly as in
`self.loader.assign_const_scalar(*constant).assigned()`. -/
def Scalar.assignedOf (s : Scalar F) (st : LoaderState F B) :
    Nat × LoaderState F B :=
  match s.value with
  | .Constant c =>
      let r := Halo2Loader.assign_const_scalar st c
      (match r.1.value with
       | .Assigned a => a
       | .Constant _ => 0, r.2)
  | .Assigned a => (a, st)

/-- Halo2Loader::add - constant folding when both operands are Constant;
a single sum_with_coeff_and_const chip call otherwise. -/
def Halo2Loader.add (st : LoaderState F B) (lhs rhs : Scalar F) :
    Scalar F × LoaderState F B :=
  match lhs.value, rhs.value with
  | .Constant a, .Constant b => Halo2Loader.scalar st (.Constant (a + b))
  | .Assigned a, .Constant c | .Constant c, .Assigned a =>
      let r := chipScalarCall st (.sumWithCoeffAndConst [(1, a)] c)
      Halo2Loader.scalar r.2 (.Assigned r.1)
  | .Assigned a, .Assigned b =>
      let r := chipScalarCall st (.sumWithCoeffAndConst [(1, a), (1, b)] 0)
      Halo2Loader.scalar r.2 (.Assigned r.1)

/-- Halo2Loader::sub - constant folding for two Constants; mixed cases use a
single sum_with_coeff_and_const (with coefficient -1, or a negated constant
term); two Assigned operands use the scalar chip's dedicated sub. -/
def Halo2Loader.sub (st : LoaderState F B) (lhs rhs : Scalar F) :
    Scalar F × LoaderState F B :=
  match lhs.value, rhs.value with
  | .Constant a, .Constant b => Halo2Loader.scalar st (.Constant (a - b))
  | .Constant c, .Assigned a =>
      let r := chipScalarCall st (.sumWithCoeffAndConst [(-1, a)] c)
      Halo2Loader.scalar r.2 (.Assigned r.1)
  | .Assigned a, .Constant c =>
      let r := chipScalarCall st (.sumWithCoeffAndConst [(1, a)] (-c))
      Halo2Loader.scalar r.2 (.Assigned r.1)
  | .Assigned a, .Assigned b =>
      let r := chipScalarCall st (.scalarSub a b)
      Halo2Loader.scalar r.2 (.Assigned r.1)

/-- Halo2Loader::mul - constant folding for two Constants; mixed cases fold
the constant into the coefficient of a single sum_with_coeff_and_const;
two Assigned operands use the fused sum_products_with_coeff_and_const. -/
def Halo2Loader.mul (st : LoaderState F B) (lhs rhs : Scalar F) :
    Scalar F × LoaderState F B :=
  match lhs.value, rhs.value with
  | .Constant a, .Constant b => Halo2Loader.scalar st (.Constant (a * b))
  | .Assigned a, .Constant c | .Constant c, .Assigned a =>
      let r := chipScalarCall st (.sumWithCoeffAndConst [(c, a)] 0)
      Halo2Loader.scalar r.2 (.Assigned r.1)
  | .Assigned a, .Assigned b =>
      let r := chipScalarCall st (.sumProductsWithCoeffAndConst [(1, a, b)] 0)
      Halo2Loader.scalar r.2 (.Assigned r.1)

/-- Halo2Loader::neg - constant folding for a Constant; dedicated chip neg
for an Assigned operand. -/
def Halo2Loader.neg (st : LoaderState F B) (s : Scalar F) :
    Scalar F × LoaderState F B :=
  match s.value with
  | .Constant c => Halo2Loader.scalar st (.Constant (-c))
  | .Assigned a =>
      let r := chipScalarCall st (.scalarNeg a)
      Halo2Loader.scalar r.2 (.Assigned r.1)

/-- Halo2Loader::invert - for a Constant, Field::invert(constant).unwrap():
panics (none) when the constant is zero, otherwise folds to the field
inverse; an Assigned operand uses the dedicated chip invert. -/
def Halo2Loader.invert (st : LoaderState F B) (s : Scalar F) :
    Option (Scalar F × LoaderState F B) :=
  match s.value with
  | .Constant c =>
      if c = 0 then none
      else some (Halo2Loader.scalar st (.Constant c⁻¹))
  | .Assigned a =>
      let r := chipScalarCall st (.scalarInvert a)
      some (Halo2Loader.scalar r.2 (.Assigned r.1))

/-- A curve point in affine representation: the identity has no affine
coordinates (CurveAffine::coordinates returns None on it). -/
inductive CPoint (B : Type) where
  | identity : CPoint B
  | affine : B → B → CPoint B
  deriving DecidableEq

/-- CurveAffine::coordinates - None exactly on the identity. -/
def CPoint.coordinates : CPoint B → Option (B × B)
  | .identity => none
  | .affine x y => some (x, y)

/-- Halo2Loader::ec_point - wraps an assigned handle into a fresh EcPoint:
the identity index is the current num_ec_point, then incremented by one. -/
def Halo2Loader.ec_point (st : LoaderState F B) (a : Nat) :
    EcPoint × LoaderState F B :=
  (⟨st.num_ec_point, a⟩, { st with num_ec_point := st.num_ec_point + 1 })

/-- BTreeMap lookup in the constant-point cache. -/
def cacheLookup (cache : List ((B × B) × EcPoint)) (k : B × B) :
    Option EcPoint :=
  match cache with
  | [] => none
  | (k2, p) :: rest => if k = k2 then some p else cacheLookup rest k

/-- Halo2Loader::assign_const_ec_point - `constant.coordinates().unwrap()`
panics (none) on the identity point; otherwise the coordinates are looked
up in the cache: a hit returns the cached handle unchanged, a miss assigns
the point through the curve chip, wraps it and inserts it into the cache. -/
def Halo2Loader.assign_const_ec_point (st : LoaderState F B)
    (constant : CPoint B) : Option (EcPoint × LoaderState F B) :=
  match constant.coordinates with
  | none => none
  | some (x, y) =>
      match cacheLookup st.const_ec_point (x, y) with
      | some p => some (p, st)
      | none =>
          let r := chipPointCall st (.assignPoint (some (x, y)))
          let q := Halo2Loader.ec_point r.2 r.1
          some (q.1, { q.2 with
            const_ec_point := q.2.const_ec_point ++ [((x, y), q.1)] })

/-- Halo2Loader::assign_ec_point - assigns a witness point (no caching);
the witness payload is opaque to the loader. -/
def Halo2Loader.assign_ec_point (st : LoaderState F B) :
    EcPoint × LoaderState F B :=
  let r := chipPointCall st (.assignPoint none)
  Halo2Loader.ec_point r.2 r.1

/-- The guard `matches!(scalar.value, Value::Constant(c) if c == one)` of
multi_scalar_multiplication's partition. -/
def isConstOne : Value F Nat → Bool
  | .Constant c => c = 1
  | .Assigned _ => false

/-- One step of the partition fold of multi_scalar_multiplication: a pair
whose scalar is the Constant one goes to the non-scaled bucket as-is; any
other pair is pushed to the scaled bucket with the scalar materialized. -/
def msmStep (acc : List Nat × List (Nat × Nat) × LoaderState F B)
    (pair : Scalar F × EcPoint) :
    List Nat × List (Nat × Nat) × LoaderState F B :=
  if isConstOne pair.1.value then
    (acc.1 ++ [pair.2.assigned], acc.2.1, acc.2.2)
  else
    let r := pair.1.assignedOf acc.2.2
    (acc.1, acc.2.1 ++ [(pair.2.assigned, r.1)], r.2)

/-- The partition fold of multi_scalar_multiplication over all pairs. -/
def msmPartition (pairs : List (Scalar F × EcPoint)) (st : LoaderState F B) :
    List Nat × List (Nat × Nat) × LoaderState F B :=
  pairs.foldl msmStep ([], [], st)

/-- LoadedEcPoint::multi_scalar_multiplication - none on the empty input
(the source indexes pairs[0] and panics); otherwise: partition into the
non-scaled and scaled buckets, one curve-chip MSM call iff the scaled
bucket is non-empty, fold the optional MSM output and the non-scaled points
with pairwise chip additions, normalize once, wrap as a fresh EcPoint. -/
def multi_scalar_multiplication (pairs : List (Scalar F × EcPoint))
    (st : LoaderState F B) : Option (EcPoint × LoaderState F B) :=
  match pairs with
  | [] => none
  | _ :: _ =>
    let part := msmPartition pairs st
    let non_scaled := part.1
    let scaled := part.2.1
    let withMSM :=
      if scaled.isEmpty then ((none : Option Nat), part.2.2)
      else
        let r := chipPointCall part.2.2 (.ecMSM scaled)
        (some r.1, r.2)
    match withMSM.1.toList ++ non_scaled with
    | [] => none
    | h :: t =>
        let red := t.foldl
          (fun x p => chipPointCall x.2 (.ecAdd x.1 p)) (h, withMSM.2)
        let nrm := chipPointCall red.2 (.ecNormalize red.1)
        some (Halo2Loader.ec_point nrm.2 nrm.1)

/-- The error type surfaced at the loader's API boundary. -/
inductive LoaderError where
  | AssertionFailure : String → LoaderError
  deriving DecidableEq

/-- ScalarLoader::load_const - wraps the field element as a Constant Scalar
(no chip call; a fresh identity is still allocated). -/
def ScalarLoader.load_const (st : LoaderState F B) (value : F) :
    Scalar F × LoaderState F B :=
  Halo2Loader.scalar st (.Constant value)

/-- ScalarLoader::assert_eq - the chip's assert_equal is called with the
mutable ctx borrow (&mut self.ctx_mut()) taken as the first argument and
held for the whole statement; when either operand holds a Constant,
lhs/rhs.assigned() re-borrows ctx mutably inside the argument list to
materialize it, so RefCell::borrow_mut panics (none) before the chip call
and before any counter increment.  With two Assigned operands assigned()
only clones the handles, the chip call is issued, and any chip failure
(chipOk = false) is mapped to AssertionFailure carrying the
caller-supplied string. -/
def ScalarLoader.assert_eq (ann : String) (lhs rhs : Scalar F)
    (st : LoaderState F B) (chipOk : Bool) :
    Option (Except LoaderError Unit × LoaderState F B) :=
  match lhs.value, rhs.value with
  | .Assigned la, .Assigned ra =>
      some (if chipOk then .ok () else .error (.AssertionFailure ann),
            chipAssertCall st (.scalarAssertEqual la ra))
  | _, _ => none

/-- EcPointLoader::ec_point_assert_eq - issues the curve chip's
assert_equal on the two assigned handles and maps any chip failure to
AssertionFailure carrying the caller-supplied string. -/
def EcPointLoader.ec_point_assert_eq (ann : String) (lhs rhs : EcPoint)
    (st : LoaderState F B) (chipOk : Bool) :
    Except LoaderError Unit × LoaderState F B :=
  let st2 := chipAssertCall st (.ecAssertEqual lhs.assigned rhs.assigned)
  (if chipOk then .ok () else .error (.AssertionFailure ann), st2)

/-- PartialEq for Scalar - comparison is on identity indices only. -/
def Scalar.beq (s t : Scalar F) : Bool :=
  s.index == t.index

/-- PartialEq for EcPoint - comparison is on identity indices only. -/
def EcPoint.beq (p q : EcPoint) : Bool :=
  p.index == q.index

/-- A client-visible loader operation that constructs a new Scalar or
EcPoint handle; arithmetic operands refer to previously produced Scalars
by position in the list of results so far. -/
inductive LoaderOp (F : Type) where
  | loadConst : F → LoaderOp F
  | assignConstScalarOp : F → LoaderOp F
  | addOp : Nat → Nat → LoaderOp F
  | subOp : Nat → Nat → LoaderOp F
  | mulOp : Nat → Nat → LoaderOp F
  | negOp : Nat → LoaderOp F
  | assignEcPointOp : LoaderOp F

/-- Runs one loader operation, appending the produced handle to the list of
Scalars (respectively EcPoints) produced so far. -/
def runOp (acc : List (Scalar F) × List EcPoint × LoaderState F B)
    (op : LoaderOp F) : List (Scalar F) × List EcPoint × LoaderState F B :=
  match op with
  | .loadConst c =>
      let r := ScalarLoader.load_const acc.2.2 c
      (acc.1 ++ [r.1], acc.2.1, r.2)
  | .assignConstScalarOp c =>
      let r := Halo2Loader.assign_const_scalar acc.2.2 c
      (acc.1 ++ [r.1], acc.2.1, r.2)
  | .addOp i j =>
      let r := Halo2Loader.add acc.2.2 (acc.1.getD i ⟨0, .Constant 0⟩)
        (acc.1.getD j ⟨0, .Constant 0⟩)
      (acc.1 ++ [r.1], acc.2.1, r.2)
  | .subOp i j =>
      let r := Halo2Loader.sub acc.2.2 (acc.1.getD i ⟨0, .Constant 0⟩)
        (acc.1.getD j ⟨0, .Constant 0⟩)
      (acc.1 ++ [r.1], acc.2.1, r.2)
  | .mulOp i j =>
      let r := Halo2Loader.mul acc.2.2 (acc.1.getD i ⟨0, .Constant 0⟩)
        (acc.1.getD j ⟨0, .Constant 0⟩)
      (acc.1 ++ [r.1], acc.2.1, r.2)
  | .negOp i =>
      let r := Halo2Loader.neg acc.2.2 (acc.1.getD i ⟨0, .Constant 0⟩)
      (acc.1 ++ [r.1], acc.2.1, r.2)
  | .assignEcPointOp =>
      let r := Halo2Loader.assign_ec_point acc.2.2
      (acc.1, acc.2.1 ++ [r.1], r.2)

/-- Runs a sequence of loader operations from a fresh loader. -/
def runOps (ops : List (LoaderOp F)) :
    List (Scalar F) × List EcPoint × LoaderState F B :=
  ops.foldl runOp ([], [], initState)

/-- Recognizes an assign-constant scalar-chip call in the trace. -/
def isAssignConstScalarCall : ChipCall F B → Bool
  | .assignConstantScalar _ => true
  | _ => false

/-- Recognizes a curve-chip MSM call in the trace. -/
def isMSMCall : ChipCall F B → Bool
  | .ecMSM _ => true
  | _ => false

/-- Recognizes a curve-chip normalize call in the trace. -/
def isNormalizeCall : ChipCall F B → Bool
  | .ecNormalize _ => true
  | _ => false

/-- Recognizes a curve-chip point-addition call in the trace. -/
def isEcAddCall : ChipCall F B → Bool
  | .ecAdd _ _ => true
  | _ => false

/-- Recognizes a curve-chip assign-point call for the given known affine
coordinates. -/
def isAssignPointCallFor (xy : B × B) : ChipCall F B → Bool
  | .assignPoint o => decide (o = some xy)
  | _ => false

/-- Invariant tying a run's accumulated handle lists to the loader state:
counters equal the number of produced handles and the k-th produced handle
carries identity index k. -/
def producedOk (acc : List (Scalar F) × List EcPoint × LoaderState F B) :
    Prop :=
  acc.2.2.num_scalar = acc.1.length ∧
  acc.2.2.num_ec_point = acc.2.1.length ∧
  (∀ k, k < acc.1.length → (acc.1.getD k ⟨0, .Constant 0⟩).index = k) ∧
  (∀ k, k < acc.2.1.length → (acc.2.1.getD k ⟨0, 0⟩).index = k)

instance : Fact (Nat.Prime 5) := ⟨by norm_num⟩

/-- Claim C5: multi_scalar_multiplication on an empty pair sequence panics
(the source indexes pairs[0]); it returns no value, modelled as none. -/
theorem C5_msm_empty_input_panics (st : LoaderState F B) :
    multi_scalar_multiplication ([] : List (Scalar F × EcPoint)) st = none :=
  rfl

/-- Witness for C5 at a concrete state. -/
theorem C5_msm_empty_input_panics_witness :
    multi_scalar_multiplication ([] : List (Scalar (ZMod 5) × EcPoint))
      (initState (B := Unit)) = none :=
  C5_msm_empty_input_panics (initState (B := Unit))

/-- Claim C6 (amended): with two Assigned-valued Scalar operands,
assert_eq returns ok () when the chip's assert_equal succeeds and exactly
AssertionFailure with the caller-supplied string when it fails; with a
Constant operand on either side it panics (none) on the RefCell double
mutable borrow of ctx before the chip call; ec_point_assert_eq returns
ok () / AssertionFailure for every pair of EcPoints. -/
theorem C6_assert_eq_error_reporting (ann : String) (la ra i j : Nat)
    (cv : F) (lhs rhs : Scalar F) (p q : EcPoint)
    (st st2 : LoaderState F B) (chipOk : Bool) :
    (ScalarLoader.assert_eq ann ⟨i, .Assigned la⟩ ⟨j, .Assigned ra⟩ st
        chipOk).map Prod.fst
      = some (if chipOk then Except.ok ()
              else Except.error (LoaderError.AssertionFailure ann)) ∧
    ScalarLoader.assert_eq ann ⟨i, .Constant cv⟩ rhs st chipOk = none ∧
    ScalarLoader.assert_eq ann lhs ⟨j, .Constant cv⟩ st chipOk = none ∧
    (EcPointLoader.ec_point_assert_eq ann p q st2 chipOk).1
      = (if chipOk then Except.ok ()
         else Except.error (LoaderError.AssertionFailure ann)) := by
  refine ⟨rfl, ?_, ?_, rfl⟩
  · obtain ⟨ri, rv⟩ := rhs
    cases rv <;> rfl
  · obtain ⟨li, lv⟩ := lhs
    cases lv <;> rfl

/-- Counterexample for C6 as stated: with the chip reporting success,
assert_eq on two Constant-valued Scalars does not return Ok; the RefCell
double mutable borrow panics (none) before the chip call. -/
theorem C6_counterexample_constant_operand_panics :
    ScalarLoader.assert_eq "eq"
      (ScalarLoader.load_const (initState (F := ZMod 5) (B := Unit)) 3).1
      (ScalarLoader.load_const (ScalarLoader.load_const
          (initState (F := ZMod 5) (B := Unit)) 3).2 3).1
      (ScalarLoader.load_const (ScalarLoader.load_const
          (initState (F := ZMod 5) (B := Unit)) 3).2 3).2
      true = none :=
  rfl

/-- Claim C7: handle equality is identity-index equality for both Scalars
and EcPoints; two load_const calls with the same constant give handles with
equal Values that compare unequal; a handle compares equal to itself (and
hence to its clone, which is the identical record). -/
theorem C7_identity_based_equality (a : F) (st : LoaderState F B) :
    (∀ s t : Scalar F, (s.beq t = true) ↔ s.index = t.index) ∧
    (∀ p q : EcPoint, (p.beq q = true) ↔ p.index = q.index) ∧
    (ScalarLoader.load_const st a).1.beq
      (ScalarLoader.load_const (ScalarLoader.load_const st a).2 a).1
      = false ∧
    (ScalarLoader.load_const st a).1.value
      = (ScalarLoader.load_const (ScalarLoader.load_const st a).2 a).1.value ∧
    (∀ s : Scalar F, s.beq s = true) ∧
    (∀ p : EcPoint, p.beq p = true) := by
  refine ⟨?_, ?_, ?_, rfl, ?_, ?_⟩
  · intro s t; simp [Scalar.beq]
  · intro p q; simp [EcPoint.beq]
  · simp [ScalarLoader.load_const, Halo2Loader.scalar, Scalar.beq]
  · intro s; simp [Scalar.beq]
  · intro p; simp [EcPoint.beq]

/-- Claim C9: add, sub and mul with one Constant and one Assigned operand
perform exactly one sum_with_coeff_and_const chip call with the constant
folded into the coefficient or constant term, never assign the constant as
a separate cell, and produce an Assigned result. -/
theorem C9_mixed_operand_single_linear_gate (c : F) (a i j : Nat)
    (st : LoaderState F B) :
    Halo2Loader.add st ⟨i, .Assigned a⟩ ⟨j, .Constant c⟩
      = (⟨st.num_scalar, .Assigned st.next_assigned_scalar⟩,
         { st with num_scalar := st.num_scalar + 1
                 , next_assigned_scalar := st.next_assigned_scalar + 1
                 , trace := st.trace ++ [.sumWithCoeffAndConst [(1, a)] c] }) ∧
    Halo2Loader.add st ⟨i, .Constant c⟩ ⟨j, .Assigned a⟩
      = (⟨st.num_scalar, .Assigned st.next_assigned_scalar⟩,
         { st with num_scalar := st.num_scalar + 1
                 , next_assigned_scalar := st.next_assigned_scalar + 1
                 , trace := st.trace ++ [.sumWithCoeffAndConst [(1, a)] c] }) ∧
    Halo2Loader.sub st ⟨i, .Constant c⟩ ⟨j, .Assigned a⟩
      = (⟨st.num_scalar, .Assigned st.next_assigned_scalar⟩,
         { st with num_scalar := st.num_scalar + 1
                 , next_assigned_scalar := st.next_assigned_scalar + 1
                 , trace := st.trace ++ [.sumWithCoeffAndConst [(-1, a)] c] }) ∧
    Halo2Loader.sub st ⟨i, .Assigned a⟩ ⟨j, .Constant c⟩
      = (⟨st.num_scalar, .Assigned st.next_assigned_scalar⟩,
         { st with num_scalar := st.num_scalar + 1
                 , next_assigned_scalar := st.next_assigned_scalar + 1
                 , trace := st.trace ++ [.sumWithCoeffAndConst [(1, a)] (-c)] }) ∧
    Halo2Loader.mul st ⟨i, .Assigned a⟩ ⟨j, .Constant c⟩
      = (⟨st.num_scalar, .Assigned st.next_assigned_scalar⟩,
         { st with num_scalar := st.num_scalar + 1
                 , next_assigned_scalar := st.next_assigned_scalar + 1
                 , trace := st.trace ++ [.sumWithCoeffAndConst [(c, a)] 0] }) ∧
    Halo2Loader.mul st ⟨i, .Constant c⟩ ⟨j, .Assigned a⟩
      = (⟨st.num_scalar, .Assigned st.next_assigned_scalar⟩,
         { st with num_scalar := st.num_scalar + 1
                 , next_assigned_scalar := st.next_assigned_scalar + 1
                 , trace := st.trace ++ [.sumWithCoeffAndConst [(c, a)] 0] }) :=
  ⟨rfl, rfl, rfl, rfl, rfl, rfl⟩

/-- Claim C10: assign_const_ec_point panics (none) on the identity point,
whose coordinate extraction fails before cache or chip are touched; on any
point with affine coordinates the operation always succeeds. -/
theorem C10_assign_const_identity_panics :
    (∀ st : LoaderState F B,
       Halo2Loader.assign_const_ec_point st .identity = none) ∧
    (∀ (x y : B) (st : LoaderState F B),
       (Halo2Loader.assign_const_ec_point st (.affine x y)).isSome
         = true) := by
  refine ⟨fun st => rfl, fun x y st => ?_⟩
  cases h : cacheLookup st.const_ec_point (x, y) <;>
    simp [Halo2Loader.assign_const_ec_point, CPoint.coordinates, h]

/-- Claim C1 (amended): for every pair of constants, add, sub, mul and neg
on Constant-valued Scalars obtained from load_const fold to the Constant
field result without any chip call; invert folds likewise whenever the
constant is nonzero (inverting the Constant zero panics, see the
counterexample). -/
theorem C1_constant_folding (a b : F) (st : LoaderState F B) :
    ((Halo2Loader.add (ScalarLoader.load_const
          (ScalarLoader.load_const st a).2 b).2
        (ScalarLoader.load_const st a).1
        (ScalarLoader.load_const (ScalarLoader.load_const st a).2 b).1).1.value
      = Value.Constant (a + b) ∧
     (Halo2Loader.add (ScalarLoader.load_const
          (ScalarLoader.load_const st a).2 b).2
        (ScalarLoader.load_const st a).1
        (ScalarLoader.load_const (ScalarLoader.load_const st a).2 b).1).2.trace
      = st.trace) ∧
    ((Halo2Loader.sub (ScalarLoader.load_const
          (ScalarLoader.load_const st a).2 b).2
        (ScalarLoader.load_const st a).1
        (ScalarLoader.load_const (ScalarLoader.load_const st a).2 b).1).1.value
      = Value.Constant (a - b) ∧
     (Halo2Loader.sub (ScalarLoader.load_const
          (ScalarLoader.load_const st a).2 b).2
        (ScalarLoader.load_const st a).1
        (ScalarLoader.load_const (ScalarLoader.load_const st a).2 b).1).2.trace
      = st.trace) ∧
    ((Halo2Loader.mul (ScalarLoader.load_const
          (ScalarLoader.load_const st a).2 b).2
        (ScalarLoader.load_const st a).1
        (ScalarLoader.load_const (ScalarLoader.load_const st a).2 b).1).1.value
      = Value.Constant (a * b) ∧
     (Halo2Loader.mul (ScalarLoader.load_const
          (ScalarLoader.load_const st a).2 b).2
        (ScalarLoader.load_const st a).1
        (ScalarLoader.load_const (ScalarLoader.load_const st a).2 b).1).2.trace
      = st.trace) ∧
    ((Halo2Loader.neg (ScalarLoader.load_const
          (ScalarLoader.load_const st a).2 b).2
        (ScalarLoader.load_const st a).1).1.value = Value.Constant (-a) ∧
     (Halo2Loader.neg (ScalarLoader.load_const
          (ScalarLoader.load_const st a).2 b).2
        (ScalarLoader.load_const st a).1).2.trace = st.trace) ∧
    (a ≠ 0 →
     ((Halo2Loader.invert (ScalarLoader.load_const
           (ScalarLoader.load_const st a).2 b).2
         (ScalarLoader.load_const st a).1).map (fun r => r.1.value)
       = some (Value.Constant a⁻¹) ∧
      (Halo2Loader.invert (ScalarLoader.load_const
           (ScalarLoader.load_const st a).2 b).2
         (ScalarLoader.load_const st a).1).map (fun r => r.2.trace)
       = some st.trace)) := by
  refine ⟨⟨rfl, rfl⟩, ⟨rfl, rfl⟩, ⟨rfl, rfl⟩, ⟨rfl, rfl⟩, fun ha => ?_⟩
  constructor <;>
    simp [Halo2Loader.invert, ScalarLoader.load_const, Halo2Loader.scalar, ha]

/-- Witness for C1 on the field with five elements at a = 2, b = 3. -/
theorem C1_constant_folding_witness :
    (((Halo2Loader.add (ScalarLoader.load_const
          (ScalarLoader.load_const (initState (B := Unit)) (2 : ZMod 5)).2
          3).2
        (ScalarLoader.load_const (initState (B := Unit)) (2 : ZMod 5)).1
        (ScalarLoader.load_const (ScalarLoader.load_const
            (initState (B := Unit)) (2 : ZMod 5)).2 3).1).1.value
      = Value.Constant (2 + 3) ∧
     (Halo2Loader.add (ScalarLoader.load_const
          (ScalarLoader.load_const (initState (B := Unit)) (2 : ZMod 5)).2
          3).2
        (ScalarLoader.load_const (initState (B := Unit)) (2 : ZMod 5)).1
        (ScalarLoader.load_const (ScalarLoader.load_const
            (initState (B := Unit)) (2 : ZMod 5)).2 3).1).2.trace
      = (initState (B := Unit)).trace) ∧
    ((Halo2Loader.sub (ScalarLoader.load_const
          (ScalarLoader.load_const (initState (B := Unit)) (2 : ZMod 5)).2
          3).2
        (ScalarLoader.load_const (initState (B := Unit)) (2 : ZMod 5)).1
        (ScalarLoader.load_const (ScalarLoader.load_const
            (initState (B := Unit)) (2 : ZMod 5)).2 3).1).1.value
      = Value.Constant (2 - 3) ∧
     (Halo2Loader.sub (ScalarLoader.load_const
          (ScalarLoader.load_const (initState (B := Unit)) (2 : ZMod 5)).2
          3).2
        (ScalarLoader.load_const (initState (B := Unit)) (2 : ZMod 5)).1
        (ScalarLoader.load_const (ScalarLoader.load_const
            (initState (B := Unit)) (2 : ZMod 5)).2 3).1).2.trace
      = (initState (B := Unit)).trace) ∧
    ((Halo2Loader.mul (ScalarLoader.load_const
          (ScalarLoader.load_const (initState (B := Unit)) (2 : ZMod 5)).2
          3).2
        (ScalarLoader.load_const (initState (B := Unit)) (2 : ZMod 5)).1
        (ScalarLoader.load_const (ScalarLoader.load_const
            (initState (B := Unit)) (2 : ZMod 5)).2 3).1).1.value
      = Value.Constant (2 * 3) ∧
     (Halo2Loader.mul (ScalarLoader.load_const
          (ScalarLoader.load_const (initState (B := Unit)) (2 : ZMod 5)).2
          3).2
        (ScalarLoader.load_const (initState (B := Unit)) (2 : ZMod 5)).1
        (ScalarLoader.load_const (ScalarLoader.load_const
            (initState (B := Unit)) (2 : ZMod 5)).2 3).1).2.trace
      = (initState (B := Unit)).trace) ∧
    ((Halo2Loader.neg (ScalarLoader.load_const
          (ScalarLoader.load_const (initState (B := Unit)) (2 : ZMod 5)).2
          3).2
        (ScalarLoader.load_const (initState (B := Unit)) (2 : ZMod 5)).1).1.value
      = Value.Constant (-2) ∧
     (Halo2Loader.neg (ScalarLoader.load_const
          (ScalarLoader.load_const (initState (B := Unit)) (2 : ZMod 5)).2
          3).2
        (ScalarLoader.load_const (initState (B := Unit))
          (2 : ZMod 5)).1).2.trace
      = (initState (B := Unit)).trace) ∧
    ((Halo2Loader.invert (ScalarLoader.load_const
          (ScalarLoader.load_const (initState (B := Unit)) (2 : ZMod 5)).2
          3).2
        (ScalarLoader.load_const (initState (B := Unit))
          (2 : ZMod 5)).1).map (fun r => r.1.value)
      = some (Value.Constant (2 : ZMod 5)⁻¹) ∧
     (Halo2Loader.invert (ScalarLoader.load_const
          (ScalarLoader.load_const (initState (B := Unit)) (2 : ZMod 5)).2
          3).2
        (ScalarLoader.load_const (initState (B := Unit))
          (2 : ZMod 5)).1).map (fun r => r.2.trace)
      = some (initState (B := Unit)).trace)) :=
  ⟨(C1_constant_folding 2 3 initState).1,
   (C1_constant_folding 2 3 initState).2.1,
   (C1_constant_folding 2 3 initState).2.2.1,
   (C1_constant_folding 2 3 initState).2.2.2.1,
   (C1_constant_folding 2 3 initState).2.2.2.2 (by decide)⟩

/-- Counterexample for C1 as stated: inverting a Scalar holding the
Constant zero does not produce a Constant result; the unwrap of
Field::invert panics (none). -/
theorem C1_counterexample_invert_zero :
    Halo2Loader.invert
      (ScalarLoader.load_const (initState (F := ZMod 5) (B := Unit)) 0).2
      (ScalarLoader.load_const (initState (F := ZMod 5) (B := Unit)) 0).1
      = none := by
  decide

/-- Looking up a key appended at the back of a cache that did not contain
it finds the appended entry. -/
theorem cacheLookup_append_self (l : List ((B × B) × EcPoint)) (k : B × B)
    (p : EcPoint) (h : cacheLookup l k = none) :
    cacheLookup (l ++ [(k, p)]) k = some p := by
  induction l with
  | nil => simp [cacheLookup]
  | cons e rest ih =>
      obtain ⟨k2, q⟩ := e
      by_cases hk : k = k2
      · simp [cacheLookup, hk] at h
      · simp only [List.cons_append, cacheLookup, if_neg hk] at h ⊢
        exact ih h

/-- Claim C3: assigning the same constant point twice returns handles with
the same identity index; the curve chip's assign_point runs exactly once
for those coordinates, the second call being a pure cache hit. -/
theorem C3_constant_point_caching (x y : B) (st : LoaderState F B)
    (hmiss : cacheLookup st.const_ec_point (x, y) = none) :
    ∃ p1 st1 p2 st2,
      Halo2Loader.assign_const_ec_point st (CPoint.affine x y)
        = some (p1, st1) ∧
      Halo2Loader.assign_const_ec_point st1 (CPoint.affine x y)
        = some (p2, st2) ∧
      p2.index = p1.index ∧ p2 = p1 ∧ st2 = st1 ∧
      st1.trace.countP (isAssignPointCallFor (x, y))
        = st.trace.countP (isAssignPointCallFor (x, y)) + 1 ∧
      st2.trace.countP (isAssignPointCallFor (x, y))
        = st.trace.countP (isAssignPointCallFor (x, y)) + 1 := by
  have h1 : Halo2Loader.assign_const_ec_point st (CPoint.affine x y)
      = some (⟨st.num_ec_point, st.next_assigned_point⟩,
          { st with
              num_ec_point := st.num_ec_point + 1
            , next_assigned_point := st.next_assigned_point + 1
            , trace := st.trace ++ [ChipCall.assignPoint (some (x, y))]
            , const_ec_point := st.const_ec_point
                ++ [((x, y), ⟨st.num_ec_point, st.next_assigned_point⟩)] }) := by
    unfold Halo2Loader.assign_const_ec_point
    simp only [CPoint.coordinates]
    rw [hmiss]
    rfl
  refine ⟨_, _, _, _, h1, ?_, rfl, rfl, rfl, ?_, ?_⟩
  · unfold Halo2Loader.assign_const_ec_point
    simp only [CPoint.coordinates]
    rw [cacheLookup_append_self st.const_ec_point (x, y) _ hmiss]
  · simp [List.countP_append, List.countP_cons, isAssignPointCallFor]
  · simp [List.countP_append, List.countP_cons, isAssignPointCallFor]

/-- Witness for C3 at the origin coordinates on a fresh loader. -/
theorem C3_constant_point_caching_witness :
    cacheLookup (initState (F := ZMod 5) (B := ZMod 5)).const_ec_point
      ((0 : ZMod 5), (0 : ZMod 5)) = none ∧
    (∃ p1 st1 p2 st2,
      Halo2Loader.assign_const_ec_point
        (initState (F := ZMod 5) (B := ZMod 5)) (CPoint.affine 0 0)
        = some (p1, st1) ∧
      Halo2Loader.assign_const_ec_point st1 (CPoint.affine 0 0)
        = some (p2, st2) ∧
      p2.index = p1.index ∧ p2 = p1 ∧ st2 = st1 ∧
      st1.trace.countP (isAssignPointCallFor (0, 0))
        = (initState (F := ZMod 5)
            (B := ZMod 5)).trace.countP (isAssignPointCallFor (0, 0)) + 1 ∧
      st2.trace.countP (isAssignPointCallFor (0, 0))
        = (initState (F := ZMod 5)
            (B := ZMod 5)).trace.countP (isAssignPointCallFor (0, 0)) + 1) :=
  ⟨rfl, C3_constant_point_caching 0 0 initState rfl⟩

/-- Claim C8 (amended): assert_eq on two Assigned-valued Scalars (and
ec_point_assert_eq on any two EcPoints) succeeds when the chip constraint
succeeds and changes the loader state only by the chip's assert-equal
trace entry, leaving both identity counters unchanged; when either Scalar
operand holds a Constant - equal values included - assert_eq does not
succeed but panics (none) on the RefCell double mutable borrow before the
chip call. -/
theorem C8_assert_eq_frame (ann : String) (la ra i j : Nat) (cv : F)
    (lhs rhs : Scalar F) (st : LoaderState F B) (chipOk : Bool) :
    ScalarLoader.assert_eq ann ⟨i, .Assigned la⟩ ⟨j, .Assigned ra⟩ st chipOk
      = some ((if chipOk then Except.ok ()
               else Except.error (LoaderError.AssertionFailure ann)),
              chipAssertCall st (.scalarAssertEqual la ra)) ∧
    (chipAssertCall st (ChipCall.scalarAssertEqual la ra)).num_scalar
      = st.num_scalar ∧
    (chipAssertCall st (ChipCall.scalarAssertEqual la ra)).num_ec_point
      = st.num_ec_point ∧
    (chipAssertCall st (ChipCall.scalarAssertEqual la ra)).trace
      = st.trace ++ [ChipCall.scalarAssertEqual la ra] ∧
    ScalarLoader.assert_eq ann ⟨i, .Constant cv⟩ rhs st chipOk = none ∧
    ScalarLoader.assert_eq ann lhs ⟨j, .Constant cv⟩ st chipOk = none ∧
    (∀ p q : EcPoint,
       (EcPointLoader.ec_point_assert_eq ann p q st chipOk).2
         = chipAssertCall st (.ecAssertEqual p.assigned q.assigned)) := by
  refine ⟨rfl, rfl, rfl, rfl, ?_, ?_, fun p q => rfl⟩
  · obtain ⟨ri, rv⟩ := rhs
    cases rv <;> rfl
  · obtain ⟨li, lv⟩ := lhs
    cases lv <;> rfl

/-- Counterexample for C8 as stated: two Scalars holding the equal
Constant value 2; assert_eq does not succeed on them even with the chip
reporting success - it panics (none) on the RefCell double mutable borrow
before the chip call. -/
theorem C8_counterexample_constant_operands :
    (ScalarLoader.load_const (initState (F := ZMod 5) (B := Unit)) 2).1.value
      = (ScalarLoader.load_const (ScalarLoader.load_const
          (initState (F := ZMod 5) (B := Unit)) 2).2 2).1.value ∧
    ScalarLoader.assert_eq "a"
      (ScalarLoader.load_const (initState (F := ZMod 5) (B := Unit)) 2).1
      (ScalarLoader.load_const (ScalarLoader.load_const
          (initState (F := ZMod 5) (B := Unit)) 2).2 2).1
      (ScalarLoader.load_const (ScalarLoader.load_const
          (initState (F := ZMod 5) (B := Unit)) 2).2 2).2
      true = none :=
  ⟨rfl, rfl⟩

/-- getD on an append stays in the left list below its length. -/
theorem getD_append_lt {α : Type} (l l2 : List α) (d : α) (k : Nat)
    (h : k < l.length) : (l ++ l2).getD k d = l.getD k d := by
  induction l generalizing k with
  | nil => simp at h
  | cons a rest ih =>
      cases k with
      | zero => rfl
      | succ n =>
          simp only [List.length_cons, Nat.succ_lt_succ_iff] at h
          simpa using ih n h

/-- getD at the old length of a one-element append returns that element. -/
theorem getD_append_len {α : Type} (l : List α) (x d : α) :
    (l ++ [x]).getD l.length d = x := by
  induction l with
  | nil => rfl
  | cons a rest ih => simpa using ih

/-- Halo2Loader.add allocates the current num_scalar as the result index,
increments the scalar counter by one and leaves the point counter alone. -/
theorem add_fresh (st : LoaderState F B) (l r : Scalar F) :
    (Halo2Loader.add st l r).1.index = st.num_scalar ∧
    (Halo2Loader.add st l r).2.num_scalar = st.num_scalar + 1 ∧
    (Halo2Loader.add st l r).2.num_ec_point = st.num_ec_point := by
  obtain ⟨li, lv⟩ := l
  obtain ⟨ri, rv⟩ := r
  cases lv <;> cases rv <;> exact ⟨rfl, rfl, rfl⟩

/-- Freshness of Halo2Loader.sub, as for add. -/
theorem sub_fresh (st : LoaderState F B) (l r : Scalar F) :
    (Halo2Loader.sub st l r).1.index = st.num_scalar ∧
    (Halo2Loader.sub st l r).2.num_scalar = st.num_scalar + 1 ∧
    (Halo2Loader.sub st l r).2.num_ec_point = st.num_ec_point := by
  obtain ⟨li, lv⟩ := l
  obtain ⟨ri, rv⟩ := r
  cases lv <;> cases rv <;> exact ⟨rfl, rfl, rfl⟩

/-- Freshness of Halo2Loader.mul, as for add. -/
theorem mul_fresh (st : LoaderState F B) (l r : Scalar F) :
    (Halo2Loader.mul st l r).1.index = st.num_scalar ∧
    (Halo2Loader.mul st l r).2.num_scalar = st.num_scalar + 1 ∧
    (Halo2Loader.mul st l r).2.num_ec_point = st.num_ec_point := by
  obtain ⟨li, lv⟩ := l
  obtain ⟨ri, rv⟩ := r
  cases lv <;> cases rv <;> exact ⟨rfl, rfl, rfl⟩

/-- Freshness of Halo2Loader.neg, as for add. -/
theorem neg_fresh (st : LoaderState F B) (s : Scalar F) :
    (Halo2Loader.neg st s).1.index = st.num_scalar ∧
    (Halo2Loader.neg st s).2.num_scalar = st.num_scalar + 1 ∧
    (Halo2Loader.neg st s).2.num_ec_point = st.num_ec_point := by
  obtain ⟨i, v⟩ := s
  cases v <;> exact ⟨rfl, rfl, rfl⟩

/-- Appending a freshly indexed Scalar preserves the run invariant. -/
theorem producedOk_push_scalar (ss : List (Scalar F)) (ps : List EcPoint)
    (st : LoaderState F B) (s : Scalar F) (st2 : LoaderState F B)
    (h : producedOk (ss, ps, st)) (hidx : s.index = st.num_scalar)
    (hns : st2.num_scalar = st.num_scalar + 1)
    (hnp : st2.num_ec_point = st.num_ec_point) :
    producedOk (ss ++ [s], ps, st2) := by
  obtain ⟨hs, hp, hgs, hgp⟩ := h
  refine ⟨?_, ?_, ?_, ?_⟩
  · rw [hns, hs]
    simp
  · simpa [hnp] using hp
  · intro k hk
    simp only [List.length_append, List.length_cons, List.length_nil] at hk
    rcases Nat.lt_or_ge k ss.length with hlt | hge
    · rw [getD_append_lt ss [s] _ k hlt]
      exact hgs k hlt
    · have hke : k = ss.length := by omega
      subst hke
      rw [getD_append_len, hidx, hs]
  · simpa using hgp

/-- Appending a freshly indexed EcPoint preserves the run invariant. -/
theorem producedOk_push_point (ss : List (Scalar F)) (ps : List EcPoint)
    (st : LoaderState F B) (p : EcPoint) (st2 : LoaderState F B)
    (h : producedOk (ss, ps, st)) (hidx : p.index = st.num_ec_point)
    (hnp : st2.num_ec_point = st.num_ec_point + 1)
    (hns : st2.num_scalar = st.num_scalar) :
    producedOk (ss, ps ++ [p], st2) := by
  obtain ⟨hs, hp, hgs, hgp⟩ := h
  refine ⟨?_, ?_, ?_, ?_⟩
  · simpa [hns] using hs
  · rw [hnp, hp]
    simp
  · simpa using hgs
  · intro k hk
    simp only [List.length_append, List.length_cons, List.length_nil] at hk
    rcases Nat.lt_or_ge k ps.length with hlt | hge
    · rw [getD_append_lt ps [p] _ k hlt]
      exact hgp k hlt
    · have hke : k = ps.length := by omega
      subst hke
      rw [getD_append_len, hidx, hp]

/-- Every loader operation preserves the run invariant. -/
theorem runOp_preserves (ss : List (Scalar F)) (ps : List EcPoint)
    (st : LoaderState F B) (op : LoaderOp F)
    (h : producedOk (ss, ps, st)) : producedOk (runOp (ss, ps, st) op) := by
  cases op with
  | loadConst c => exact producedOk_push_scalar ss ps st _ _ h rfl rfl rfl
  | assignConstScalarOp c =>
      exact producedOk_push_scalar ss ps st _ _ h rfl rfl rfl
  | addOp i j =>
      exact producedOk_push_scalar ss ps st _ _ h (add_fresh st _ _).1
        (add_fresh st _ _).2.1 (add_fresh st _ _).2.2
  | subOp i j =>
      exact producedOk_push_scalar ss ps st _ _ h (sub_fresh st _ _).1
        (sub_fresh st _ _).2.1 (sub_fresh st _ _).2.2
  | mulOp i j =>
      exact producedOk_push_scalar ss ps st _ _ h (mul_fresh st _ _).1
        (mul_fresh st _ _).2.1 (mul_fresh st _ _).2.2
  | negOp i =>
      exact producedOk_push_scalar ss ps st _ _ h (neg_fresh st _).1
        (neg_fresh st _).2.1 (neg_fresh st _).2.2
  | assignEcPointOp => exact producedOk_push_point ss ps st _ _ h rfl rfl rfl

/-- Any run from a fresh loader satisfies the invariant. -/
theorem runOps_producedOk (ops : List (LoaderOp F)) :
    producedOk (runOps (B := B) ops) := by
  have main : ∀ (l : List (LoaderOp F))
      (acc : List (Scalar F) × List EcPoint × LoaderState F B),
      producedOk acc → producedOk (l.foldl runOp acc) := by
    intro l
    induction l with
    | nil => exact fun acc h => h
    | cons op rest ih =>
        intro acc h
        obtain ⟨ss, ps, st⟩ := acc
        exact ih _ (runOp_preserves ss ps st op h)
  refine main ops ([], [], initState) ⟨rfl, rfl, ?_, ?_⟩ <;>
    intro k hk <;> simp at hk

/-- Claim C2: over any sequence of handle-producing loader operations the
n-th produced Scalar (respectively EcPoint) carries identity index n
(zero-based), all indices are distinct, and the counters equal the number
of handles produced, so indices grow by exactly one per construction. -/
theorem C2_identity_uniqueness (ops : List (LoaderOp F)) :
    (∀ n, n < (runOps (B := B) ops).1.length →
       ((runOps (B := B) ops).1.getD n ⟨0, .Constant 0⟩).index = n) ∧
    (∀ n, n < (runOps (B := B) ops).2.1.length →
       ((runOps (B := B) ops).2.1.getD n ⟨0, 0⟩).index = n) ∧
    (∀ m n, m < (runOps (B := B) ops).1.length →
       n < (runOps (B := B) ops).1.length → m ≠ n →
       ((runOps (B := B) ops).1.getD m ⟨0, .Constant 0⟩).index
         ≠ ((runOps (B := B) ops).1.getD n ⟨0, .Constant 0⟩).index) ∧
    (∀ m n, m < (runOps (B := B) ops).2.1.length →
       n < (runOps (B := B) ops).2.1.length → m ≠ n →
       ((runOps (B := B) ops).2.1.getD m ⟨0, 0⟩).index
         ≠ ((runOps (B := B) ops).2.1.getD n ⟨0, 0⟩).index) ∧
    (runOps (B := B) ops).2.2.num_scalar = (runOps (B := B) ops).1.length ∧
    (runOps (B := B) ops).2.2.num_ec_point
      = (runOps (B := B) ops).2.1.length := by
  obtain ⟨hs, hp, hgs, hgp⟩ := runOps_producedOk (B := B) ops
  refine ⟨hgs, hgp, ?_, ?_, hs, hp⟩
  · intro m n hm hn hmn
    rw [hgs m hm, hgs n hn]
    exact hmn
  · intro m n hm hn hmn
    rw [hgp m hm, hgp n hn]
    exact hmn

/-- Witness for C2 on a concrete four-operation run. -/
theorem C2_identity_uniqueness_witness :
    (2 < (runOps (F := ZMod 5) (B := Unit)
        [LoaderOp.loadConst 2, LoaderOp.loadConst 3, LoaderOp.addOp 0 1,
         LoaderOp.assignEcPointOp]).1.length) ∧
    ((runOps (F := ZMod 5) (B := Unit)
        [LoaderOp.loadConst 2, LoaderOp.loadConst 3, LoaderOp.addOp 0 1,
         LoaderOp.assignEcPointOp]).1.getD 2 ⟨0, .Constant 0⟩).index = 2 ∧
    ((runOps (F := ZMod 5) (B := Unit)
        [LoaderOp.loadConst 2, LoaderOp.loadConst 3, LoaderOp.addOp 0 1,
         LoaderOp.assignEcPointOp]).1.getD 0 ⟨0, .Constant 0⟩).index
      ≠ ((runOps (F := ZMod 5) (B := Unit)
        [LoaderOp.loadConst 2, LoaderOp.loadConst 3, LoaderOp.addOp 0 1,
         LoaderOp.assignEcPointOp]).1.getD 2 ⟨0, .Constant 0⟩).index ∧
    ((runOps (F := ZMod 5) (B := Unit)
        [LoaderOp.loadConst 2, LoaderOp.loadConst 3, LoaderOp.addOp 0 1,
         LoaderOp.assignEcPointOp]).2.1.getD 0 ⟨0, 0⟩).index = 0 :=
  ⟨by decide,
   (C2_identity_uniqueness _).1 2 (by decide),
   (C2_identity_uniqueness _).2.2.1 0 2 (by decide) (by decide) (by decide),
   (C2_identity_uniqueness _).2.1 0 (by decide)⟩

/-- Materializing a Scalar adds at most one assign-constant chip call to
the trace and touches neither the point counter nor the cache. -/
theorem assignedOf_state (s : Scalar F) (st : LoaderState F B) :
    ∃ extra, (s.assignedOf st).2.trace = st.trace ++ extra ∧
      (∀ c ∈ extra, isAssignConstScalarCall (F := F) (B := B) c = true) ∧
      (s.assignedOf st).2.num_ec_point = st.num_ec_point := by
  obtain ⟨i, v⟩ := s
  cases v with
  | Constant c =>
      exact ⟨[ChipCall.assignConstantScalar c], rfl,
        by simp [isAssignConstScalarCall], rfl⟩
  | Assigned a => exact ⟨[], by simp [Scalar.assignedOf], by simp, rfl⟩

/-- The MSM partition fold: the non-scaled bucket collects, in order, the
assigned handles of exactly the pairs whose scalar Value is the Constant
one; the scaled bucket's point components are the handles of all other
pairs; the fold adds only assign-constant scalar-chip calls to the trace
and leaves the point counter unchanged. -/
theorem msmPartition_go (pairs : List (Scalar F × EcPoint)) (ns : List Nat)
    (sc : List (Nat × Nat)) (st : LoaderState F B) :
    (pairs.foldl msmStep (ns, sc, st)).1
      = ns ++ (pairs.filter fun q => isConstOne q.1.value).map
          (fun q => q.2.assigned) ∧
    ((pairs.foldl msmStep (ns, sc, st)).2.1).map Prod.fst
      = sc.map Prod.fst
        ++ (pairs.filter fun q => !isConstOne q.1.value).map
          (fun q => q.2.assigned) ∧
    (∃ extra, (pairs.foldl msmStep (ns, sc, st)).2.2.trace
        = st.trace ++ extra ∧
      ∀ c ∈ extra, isAssignConstScalarCall (F := F) (B := B) c = true) ∧
    (pairs.foldl msmStep (ns, sc, st)).2.2.num_ec_point
      = st.num_ec_point := by
  induction pairs generalizing ns sc st with
  | nil => exact ⟨by simp, by simp, ⟨[], by simp, by simp⟩, rfl⟩
  | cons q rest ih =>
      by_cases hone : isConstOne q.1.value
      · have hstep : msmStep (ns, sc, st) q
            = (ns ++ [q.2.assigned], sc, st) := by
          simp [msmStep, hone]
        rw [List.foldl_cons, hstep]
        obtain ⟨h1, h2, h3, h4⟩ := ih (ns ++ [q.2.assigned]) sc st
        refine ⟨?_, ?_, h3, h4⟩
        · rw [h1]
          simp [List.filter_cons, hone]
        · rw [h2]
          simp [List.filter_cons, hone]
      · have hstep : msmStep (ns, sc, st) q
            = (ns, sc ++ [(q.2.assigned, (q.1.assignedOf st).1)],
               (q.1.assignedOf st).2) := by
          simp [msmStep, hone]
        rw [List.foldl_cons, hstep]
        obtain ⟨h1, h2, ⟨e, he, hall⟩, h4⟩ :=
          ih ns (sc ++ [(q.2.assigned, (q.1.assignedOf st).1)])
            ((q.1.assignedOf st).2)
        obtain ⟨e0, he0, hall0, hnum0⟩ := assignedOf_state q.1 st
        refine ⟨?_, ?_, ⟨e0 ++ e, ?_, ?_⟩, h4.trans hnum0⟩
        · rw [h1]
          simp [List.filter_cons, hone]
        · rw [h2]
          simp [List.filter_cons, hone]
        · rw [he, he0, List.append_assoc]
        · intro c hc
          rcases List.mem_append.mp hc with hc0 | hc1
          · exact hall0 c hc0
          · exact hall c hc1

/-- The pairwise-addition reduce of multi_scalar_multiplication appends
exactly one ecAdd chip call per folded element and leaves the point
counter unchanged. -/
theorem msmReduce_go (t : List Nat) (a0 : Nat) (st : LoaderState F B) :
    ∃ extra,
      (t.foldl (fun x p => chipPointCall (F := F) x.2 (ChipCall.ecAdd x.1 p))
          (a0, st)).2.trace = st.trace ++ extra ∧
      extra.length = t.length ∧
      (∀ c ∈ extra, isEcAddCall (F := F) (B := B) c = true) ∧
      (t.foldl (fun x p => chipPointCall (F := F) x.2 (ChipCall.ecAdd x.1 p))
          (a0, st)).2.num_ec_point = st.num_ec_point := by
  induction t generalizing a0 st with
  | nil => exact ⟨[], by simp, rfl, by simp, rfl⟩
  | cons p rest ih =>
      obtain ⟨e, he, hlen, hall, hnum⟩ :=
        ih (chipPointCall st (ChipCall.ecAdd a0 p)).1
          (chipPointCall st (ChipCall.ecAdd a0 p)).2
      refine ⟨ChipCall.ecAdd a0 p :: e, ?_, ?_, ?_, ?_⟩
      · rw [List.foldl_cons]
        rw [he]
        simp [chipPointCall]
      · simp [hlen]
      · intro c hc
        rcases List.mem_cons.mp hc with hc0 | hc1
        · subst hc0
          rfl
        · exact hall c hc1
      · rw [List.foldl_cons]
        exact hnum

/-- Chip-call classes are mutually exclusive: an assign-constant scalar
call is neither an MSM, a normalize nor a point addition; a point addition
is neither an MSM nor a normalize; likewise for the singleton normalize
and MSM entries. -/
theorem chip_call_classes (c : ChipCall F B) :
    (isAssignConstScalarCall c = true →
      isMSMCall c = false ∧ isNormalizeCall c = false ∧
        isEcAddCall c = false) ∧
    (isEcAddCall c = true →
      isMSMCall c = false ∧ isNormalizeCall c = false) := by
  cases c <;>
    simp [isAssignConstScalarCall, isMSMCall, isNormalizeCall, isEcAddCall]

/-- A trace segment of assign-constant calls contributes nothing to the
MSM, normalize or point-addition counts. -/
theorem countP_zero_of_all_assignConst (e : List (ChipCall F B))
    (h : ∀ c ∈ e, isAssignConstScalarCall c = true) :
    e.countP isMSMCall = 0 ∧ e.countP isNormalizeCall = 0 ∧
      e.countP isEcAddCall = 0 := by
  refine ⟨List.countP_eq_zero.mpr fun c hc => ?_,
    List.countP_eq_zero.mpr fun c hc => ?_,
    List.countP_eq_zero.mpr fun c hc => ?_⟩
  · simp [((chip_call_classes c).1 (h c hc)).1]
  · simp [((chip_call_classes c).1 (h c hc)).2.1]
  · simp [((chip_call_classes c).1 (h c hc)).2.2]

/-- A trace segment of point additions counts its full length as additions
and contributes nothing to the MSM or normalize counts. -/
theorem countP_of_all_ecAdd (e : List (ChipCall F B))
    (h : ∀ c ∈ e, isEcAddCall c = true) :
    e.countP isEcAddCall = e.length ∧ e.countP isMSMCall = 0 ∧
      e.countP isNormalizeCall = 0 := by
  refine ⟨List.countP_eq_length.mpr fun c hc => h c hc,
    List.countP_eq_zero.mpr fun c hc => ?_,
    List.countP_eq_zero.mpr fun c hc => ?_⟩
  · simp [((chip_call_classes c).2 (h c hc)).1]
  · simp [((chip_call_classes c).2 (h c hc)).2]

/-- Claim C4: on a non-empty pair sequence, multi_scalar_multiplication
puts exactly the Constant-one-scalar pairs into the non-scaled bucket and
all other pairs (points paired with materialized scalars) into the scaled
bucket, calls the curve chip's MSM exactly once iff the scaled bucket is
non-empty, performs one pairwise chip addition per remaining chained point,
applies normalize exactly once as the final chip call, and wraps the
result as a fresh EcPoint. -/
theorem C4_msm_structure (pairs : List (Scalar F × EcPoint))
    (st : LoaderState F B) (hne : pairs ≠ []) :
    ∃ p st2, multi_scalar_multiplication pairs st = some (p, st2) ∧
      (msmPartition pairs st).1
        = (pairs.filter fun q => isConstOne q.1.value).map
            (fun q => q.2.assigned) ∧
      ((msmPartition pairs st).2.1).map Prod.fst
        = (pairs.filter fun q => !isConstOne q.1.value).map
            (fun q => q.2.assigned) ∧
      st2.trace.countP isMSMCall
        = st.trace.countP isMSMCall
          + (if (msmPartition pairs st).2.1 = [] then 0 else 1) ∧
      st2.trace.countP isNormalizeCall
        = st.trace.countP isNormalizeCall + 1 ∧
      st2.trace.countP isEcAddCall
        = st.trace.countP isEcAddCall
          + ((if (msmPartition pairs st).2.1 = [] then 0 else 1)
             + (msmPartition pairs st).1.length - 1) ∧
      (∃ a, st2.trace.getLast? = some (ChipCall.ecNormalize a)) ∧
      p.index = st.num_ec_point ∧
      st2.num_ec_point = st.num_ec_point + 1 := by
  obtain ⟨q, rest, rfl⟩ : ∃ q rest, pairs = q :: rest := by
    cases pairs with
    | nil => exact absurd rfl hne
    | cons q rest => exact ⟨q, rest, rfl⟩
  obtain ⟨h1, h2, ⟨e0, he0, hall0⟩, hnum0⟩ :=
    msmPartition_go (q :: rest) [] [] st
  rcases hP : msmPartition (q :: rest) st with ⟨ns, sc, stP⟩
  have hP' : (q :: rest).foldl msmStep ([], [], st) = (ns, sc, stP) := hP
  simp only [hP', List.nil_append, List.map_nil] at h1 h2 he0 hall0 hnum0
  dsimp only
  obtain ⟨hz0M, hz0N, hz0A⟩ := countP_zero_of_all_assignConst e0 hall0
  by_cases hsc : sc = []
  · subst hsc
    have hnsne : ns ≠ [] := by
      by_cases hone : isConstOne q.1.value
      · rw [h1]
        simp [List.filter_cons, hone]
      · rw [List.filter_cons] at h2
        simp [hone] at h2
    obtain ⟨n0, t0, rfl⟩ : ∃ n0 t0, ns = n0 :: t0 := by
      cases ns with
      | nil => exact absurd rfl hnsne
      | cons n0 t0 => exact ⟨n0, t0, rfl⟩
    obtain ⟨eA, heA, hlenA, hallA, hnumA⟩ := msmReduce_go t0 n0 stP
    rcases hR : t0.foldl
        (fun x p => chipPointCall (F := F) x.2 (ChipCall.ecAdd x.1 p))
        (n0, stP) with ⟨acc, stR⟩
    simp only [hR] at heA hnumA
    obtain ⟨haA, haM, haN⟩ := countP_of_all_ecAdd eA hallA
    have hcomp : multi_scalar_multiplication (q :: rest) st
        = some (Halo2Loader.ec_point
            (chipPointCall stR (ChipCall.ecNormalize acc)).2
            (chipPointCall stR (ChipCall.ecNormalize acc)).1) := by
      unfold multi_scalar_multiplication
      rw [hP]
      simp only [List.isEmpty_nil, Option.toList_none, List.nil_append,
        if_true, Option.toList_some]
      rw [hR]
    refine ⟨_, _, hcomp, h1, h2, ?_, ?_, ?_, ⟨acc, ?_⟩, ?_, ?_⟩
    · show ((chipPointCall stR (ChipCall.ecNormalize acc)).2.trace).countP
          isMSMCall = st.trace.countP isMSMCall + _
      simp only [chipPointCall]
      rw [heA, he0]
      simp [List.countP_append, List.countP_cons, isMSMCall, hz0M, haM]
    · show ((chipPointCall stR (ChipCall.ecNormalize acc)).2.trace).countP
          isNormalizeCall = st.trace.countP isNormalizeCall + 1
      simp only [chipPointCall]
      rw [heA, he0]
      simp [List.countP_append, List.countP_cons, isNormalizeCall, hz0N, haN]
    · show ((chipPointCall stR (ChipCall.ecNormalize acc)).2.trace).countP
          isEcAddCall = st.trace.countP isEcAddCall + _
      simp only [chipPointCall]
      rw [heA, he0]
      simp only [List.countP_append, List.countP_cons, isEcAddCall, hz0A,
        haA, hlenA, List.countP_nil]
      simp [isEcAddCall]
    · show ((chipPointCall stR (ChipCall.ecNormalize acc)).2.trace).getLast?
          = some (ChipCall.ecNormalize acc)
      simp only [chipPointCall]
      exact List.getLast?_concat _
    · show stR.num_ec_point = st.num_ec_point
      exact hnumA.trans hnum0
    · show stR.num_ec_point + 1 = st.num_ec_point + 1
      rw [hnumA.trans hnum0]
  · have hscE : sc.isEmpty = false := List.isEmpty_eq_false.mpr hsc
    obtain ⟨eA, heA, hlenA, hallA, hnumA⟩ :=
      msmReduce_go ns (chipPointCall stP (ChipCall.ecMSM sc)).1
        (chipPointCall stP (ChipCall.ecMSM sc)).2
    rcases hR : ns.foldl
        (fun x p => chipPointCall (F := F) x.2 (ChipCall.ecAdd x.1 p))
        ((chipPointCall stP (ChipCall.ecMSM sc)).1,
         (chipPointCall stP (ChipCall.ecMSM sc)).2) with ⟨acc, stR⟩
    simp only [hR] at heA hnumA
    obtain ⟨haA, haM, haN⟩ := countP_of_all_ecAdd eA hallA
    have hcomp : multi_scalar_multiplication (q :: rest) st
        = some (Halo2Loader.ec_point
            (chipPointCall stR (ChipCall.ecNormalize acc)).2
            (chipPointCall stR (ChipCall.ecNormalize acc)).1) := by
      unfold multi_scalar_multiplication
      rw [hP]
      simp only [hscE, Option.toList_some, if_false, Bool.false_eq_true,
        List.nil_append, List.singleton_append]
      rw [hR]
    refine ⟨_, _, hcomp, h1, h2, ?_, ?_, ?_, ⟨acc, ?_⟩, ?_, ?_⟩
    · show ((chipPointCall stR (ChipCall.ecNormalize acc)).2.trace).countP
          isMSMCall = st.trace.countP isMSMCall + _
      simp only [chipPointCall]
      rw [heA]
      simp only [chipPointCall]
      rw [he0]
      simp [List.countP_append, List.countP_cons, isMSMCall, hz0M, haM, hsc]
    · show ((chipPointCall stR (ChipCall.ecNormalize acc)).2.trace).countP
          isNormalizeCall = st.trace.countP isNormalizeCall + 1
      simp only [chipPointCall]
      rw [heA]
      simp only [chipPointCall]
      rw [he0]
      simp [List.countP_append, List.countP_cons, isNormalizeCall, hz0N, haN]
    · show ((chipPointCall stR (ChipCall.ecNormalize acc)).2.trace).countP
          isEcAddCall = st.trace.countP isEcAddCall + _
      simp only [chipPointCall]
      rw [heA]
      simp only [chipPointCall]
      rw [he0]
      simp only [List.countP_append, List.countP_cons, hz0A, haA, hlenA,
        List.countP_nil]
      simp [isEcAddCall, hsc]
    · show ((chipPointCall stR (ChipCall.ecNormalize acc)).2.trace).getLast?
          = some (ChipCall.ecNormalize acc)
      simp only [chipPointCall]
      exact List.getLast?_concat _
    · show stR.num_ec_point = st.num_ec_point
      exact hnumA.trans hnum0
    · show stR.num_ec_point + 1 = st.num_ec_point + 1
      rw [hnumA.trans hnum0]

/-- Witness for C4 on a two-pair input: one Constant-one scalar and one
Constant-two scalar. -/
theorem C4_msm_structure_witness :
    (([((⟨0, Value.Constant 1⟩ : Scalar (ZMod 5)), (⟨0, 10⟩ : EcPoint)),
       (⟨1, Value.Constant 2⟩, ⟨1, 11⟩)]
      : List (Scalar (ZMod 5) × EcPoint)) ≠ []) ∧
    (∃ p st2,
      multi_scalar_multiplication
        ([((⟨0, Value.Constant 1⟩ : Scalar (ZMod 5)), (⟨0, 10⟩ : EcPoint)),
          (⟨1, Value.Constant 2⟩, ⟨1, 11⟩)])
        (initState (F := ZMod 5) (B := Unit)) = some (p, st2) ∧
      (msmPartition
        ([((⟨0, Value.Constant 1⟩ : Scalar (ZMod 5)), (⟨0, 10⟩ : EcPoint)),
          (⟨1, Value.Constant 2⟩, ⟨1, 11⟩)])
        (initState (F := ZMod 5) (B := Unit))).1
        = (([((⟨0, Value.Constant 1⟩ : Scalar (ZMod 5)), (⟨0, 10⟩ : EcPoint)),
            (⟨1, Value.Constant 2⟩, ⟨1, 11⟩)]).filter
              fun q => isConstOne q.1.value).map (fun q => q.2.assigned) ∧
      ((msmPartition
        ([((⟨0, Value.Constant 1⟩ : Scalar (ZMod 5)), (⟨0, 10⟩ : EcPoint)),
          (⟨1, Value.Constant 2⟩, ⟨1, 11⟩)])
        (initState (F := ZMod 5) (B := Unit))).2.1).map Prod.fst
        = (([((⟨0, Value.Constant 1⟩ : Scalar (ZMod 5)), (⟨0, 10⟩ : EcPoint)),
            (⟨1, Value.Constant 2⟩, ⟨1, 11⟩)]).filter
              fun q => !isConstOne q.1.value).map (fun q => q.2.assigned) ∧
      st2.trace.countP isMSMCall
        = (initState (F := ZMod 5) (B := Unit)).trace.countP isMSMCall
          + (if (msmPartition
              ([((⟨0, Value.Constant 1⟩ : Scalar (ZMod 5)),
                  (⟨0, 10⟩ : EcPoint)),
                (⟨1, Value.Constant 2⟩, ⟨1, 11⟩)])
              (initState (F := ZMod 5) (B := Unit))).2.1 = []
             then 0 else 1) ∧
      st2.trace.countP isNormalizeCall
        = (initState (F := ZMod 5) (B := Unit)).trace.countP isNormalizeCall
          + 1 ∧
      st2.trace.countP isEcAddCall
        = (initState (F := ZMod 5) (B := Unit)).trace.countP isEcAddCall
          + ((if (msmPartition
                ([((⟨0, Value.Constant 1⟩ : Scalar (ZMod 5)),
                    (⟨0, 10⟩ : EcPoint)),
                  (⟨1, Value.Constant 2⟩, ⟨1, 11⟩)])
                (initState (F := ZMod 5) (B := Unit))).2.1 = []
              then 0 else 1)
             + (msmPartition
                ([((⟨0, Value.Constant 1⟩ : Scalar (ZMod 5)),
                    (⟨0, 10⟩ : EcPoint)),
                  (⟨1, Value.Constant 2⟩, ⟨1, 11⟩)])
                (initState (F := ZMod 5) (B := Unit))).1.length - 1) ∧
      (∃ a, st2.trace.getLast? = some (ChipCall.ecNormalize a)) ∧
      p.index = (initState (F := ZMod 5) (B := Unit)).num_ec_point ∧
      st2.num_ec_point
        = (initState (F := ZMod 5) (B := Unit)).num_ec_point + 1) :=
  ⟨by decide,
   C4_msm_structure
     ([((⟨0, Value.Constant 1⟩ : Scalar (ZMod 5)), (⟨0, 10⟩ : EcPoint)),
       (⟨1, Value.Constant 2⟩, ⟨1, 11⟩)])
     (initState (F := ZMod 5) (B := Unit)) (by decide)⟩

end PlonkHalo2
